import Mathlib

/-!
Shallow embedding of the diesel CLI migration subsystem
(`diesel_cli/src/migrations/mod.rs`, with the configuration loader from
`diesel_cli/src/config.rs`).

Strings from the source are modelled as `List Char` (`Str`), so that every
operation (prefix tests, comparisons, concatenation) is executable and
kernel-decidable.  Filesystem and database effects are modelled by explicit
state passing: the migration store is the list of directory names under the
store root, and the database's applied-migration bookkeeping is the ordered
list of applied versions (oldest first).

Collaborator code that lives in the `diesel_migrations` crate (the migration
harness: `revert_last_migration`, `revert_all_migrations`, `run_migrations`,
`applied_migrations`, `find_migrations_directory`) is not part of the sources
under inspection; those pieces are modelled from the spec and are marked as
such in their doc comments.
-/

abbrev Str : Type := List Char

/-- Error type of the CLI, mirroring the `crate::errors::Error` variants that
the migration module constructs. -/
inductive IoErrorKind where
  | alreadyExists
  | notFound
  | otherKind
deriving DecidableEq, Repr

/-- An OS-level I/O error: a kind plus a message, as carried by
`std::io::Error`. -/
structure IoError where
  kind : IoErrorKind
  msg : Str
deriving DecidableEq, Repr

/-- The `diesel_migrations::MigrationError` variants the CLI inspects. -/
inductive MigrationErr where
  | noMigrationRun
  | unknownMigrationVersion (version : Str)
  | otherError (msg : Str)
deriving DecidableEq, Repr

/-- The CLI error variants constructed in `migrations/mod.rs`. -/
inductive CliError where
  | migrationError (e : MigrationErr)
  | duplicateMigrationVersion (dir : Str) (version : Str)
  | tooManyMigrations (dir : Str) (version : Str)
  | ioError (e : IoError) (path : Option Str)
  | failedToAcquireMigrationFolderLock (path : Str) (msg : Str)
deriving DecidableEq, Repr

/-- The migration store root's directory contents: the names of the migration
directories directly under the root. -/
structure MigrationStoreFs where
  folders : List Str
deriving DecidableEq, Repr

/-- Source `is_duplicate_version` (inner helper of `create_migration_dir`):
true iff some existing folder name starts with `full_version`. -/
def is_duplicate_version (full_version : Str) (migration_folders : List Str) : Bool :=
  migration_folders.any (fun folder => full_version.isPrefixOf folder)

/-- Lowercase hexadecimal digit, as produced by Rust's `{:x}` formatting. -/
def hexChar (n : Nat) : Char :=
  if n < 10 then Char.ofNat (48 + n) else Char.ofNat (87 + n)

/-- Rust's `{:04x}` formatting of a value below `0x10000`: four lowercase hex
digits, zero padded. -/
def toHex4 (n : Nat) : Str :=
  [hexChar (n / 4096 % 16), hexChar (n / 256 % 16), hexChar (n / 16 % 16), hexChar (n % 16)]

/-- Source `create` (inner helper of `create_migration_dir`):
`fs::create_dir(migrations_dir.join(format!("{version}_{migration_name}")))`.
Creation of the directory is modelled by appending its name to the store
listing; the returned path is `<migrations_dir>/<version>_<migration_name>`. -/
def createDirEntry (migrations_dir : Str) (version : Str) (migration_name : Str)
    (st : MigrationStoreFs) : Str × MigrationStoreFs :=
  let versioned_name := version ++ ("_").data ++ migration_name
  (migrations_dir ++ ("/").data ++ versioned_name, ⟨st.folders ++ [versioned_name]⟩)

/-- The source's `for subversion in 0..=MAX_MIGRATIONS_PER_SEC` probe loop:
starting at `start` with `fuel` iterations remaining, return the first
subversion that is not a duplicate. -/
def firstFreeSub (dup : Nat → Bool) : Nat → Nat → Option Nat
  | _, 0 => none
  | s, fuel + 1 => if dup s then firstFreeSub dup (s + 1) fuel else some s

/-- Source `create_migration_dir`: with an explicit version, fail with
`DuplicateMigrationVersion` when some existing folder name starts with the
version, else create `<version>_<name>`; without an explicit version, probe
suffixes `0000`..`ffff` in increasing order and create the first
`<version>-<suffix>` that is not a prefix of any existing folder name,
failing with `TooManyMigrations` when all 65536 candidates are taken. -/
def create_migration_dir (migrations_dir : Str) (migration_name : Str) (version : Str)
    (explicit_version : Bool) (st : MigrationStoreFs) :
    Except CliError (Str × MigrationStoreFs) :=
  let migration_folders := st.folders
  if explicit_version then
    if is_duplicate_version version migration_folders then
      .error (.duplicateMigrationVersion migrations_dir version)
    else
      .ok (createDirEntry migrations_dir version migration_name st)
  else
    match firstFreeSub
        (fun sub => is_duplicate_version (version ++ ("-").data ++ toHex4 sub) migration_folders)
        0 65536 with
    | some sub =>
        .ok (createDirEntry migrations_dir (version ++ ("-").data ++ toHex4 sub)
          migration_name st)
    | none => .error (.tooManyMigrations migrations_dir version)

/-- Source `generate_sql_migration`: the `up.sql` content is the placeholder
comment followed by the prefill text; a `down.sql` is produced only when
`with_down` holds, again placeholder followed by prefill. -/
def generate_sql_migration (with_down : Bool) (up_sql : Str) (down_sql : Str) :
    Str × Option Str :=
  (("-- Your SQL goes here\n").data ++ up_sql,
   if with_down then
     some (("-- This file should undo anything in `up.sql`\n").data ++ down_sql)
   else none)

/-- Path of the lock sentinel file used by `migration_folder_lock`:
`dir.join(".diesel_lock")`. -/
def lockSentinelPath (dir : Str) : Str := dir ++ ("/.diesel_lock").data

/-- Outcomes of the fallible OS file operations used by the locking path:
`File::create_new`, `File::open` and `RwLock::write`, modelled as oracles
indexed by path. -/
structure LockFileOps where
  createNewFile : Str → Except IoError Unit
  openFile : Str → Except IoError Unit
  lockWrite : Str → Except IoError Unit

/-- Source `migration_folder_lock`: try `File::create_new(dir/".diesel_lock")`;
on `AlreadyExists` fall back to `File::open`; any other failure (or an open
failure) becomes `Error::IoError` carrying the lock file path. -/
def migration_folder_lock (ops : LockFileOps) (dir : Str) : Except CliError Str :=
  let path := lockSentinelPath dir
  match ops.createNewFile path with
  | .ok _ => .ok path
  | .error err =>
      if err.kind = IoErrorKind.alreadyExists then
        match ops.openFile path with
        | .ok _ => .ok path
        | .error e => .error (.ioError e (some path))
      else
        .error (.ioError err (some path))

/-- The `Generate` arm of `run_migration_command`, locking part: open the lock
file via `migration_folder_lock`, then take the write lock; a write-lock
failure becomes `FailedToAcquireMigrationFolderLock` carrying the migrations
folder path (not the lock file path). -/
def acquire_generate_lock (ops : LockFileOps) (migrations_folder : Str) :
    Except CliError Str :=
  match migration_folder_lock ops migrations_folder with
  | .error e => .error e
  | .ok file =>
      match ops.lockWrite file with
      | .ok _ => .ok file
      | .error err =>
          .error (.failedToAcquireMigrationFolderLock migrations_folder err.msg)

/-- The `Generate` arm of `run_migration_command` after argument processing:
acquire the store lock, allocate and create the migration directory, then
write the up (and optionally down) scripts.  Returns the new store listing
and the written file contents. -/
def generate_command (ops : LockFileOps) (migrations_folder : Str) (migration_name : Str)
    (version : Str) (explicit_version : Bool) (with_down : Bool)
    (up_sql : Str) (down_sql : Str) (st : MigrationStoreFs) :
    Except CliError (MigrationStoreFs × Str × Option Str) :=
  match acquire_generate_lock ops migrations_folder with
  | .error e => .error e
  | .ok _ =>
      match create_migration_dir migrations_folder migration_name version explicit_version st with
      | .error e => .error e
      | .ok (_, st2) =>
          let scripts := generate_sql_migration with_down up_sql down_sql
          .ok (st2, scripts.1, scripts.2)

/-- A concrete file-operations oracle where creating and opening the sentinel
succeed but taking the write lock fails, exhibiting the lock-failure path. -/
def failingLockOps : LockFileOps :=
  ⟨fun _ => .ok (), fun _ => .ok (), fun _ => .error ⟨IoErrorKind.otherKind, ("busy").data⟩⟩

/-- A filesystem path: an absolute-or-relative flag plus components, enough to
model `PathBuf::join` and `Path::is_relative`. -/
structure MPath where
  absolute : Bool
  comps : List Str
deriving DecidableEq, Repr

/-- Rust's `Path::join`: an absolute right-hand side replaces the left-hand
side entirely. -/
def MPath.join (p q : MPath) : MPath :=
  if q.absolute then q else ⟨p.absolute, p.comps ++ q.comps⟩

/-- Rust's `Path::is_relative`. -/
def MPath.isRelative (p : MPath) : Bool := !p.absolute

/-- The `[migrations_directory]` section of `diesel.toml`
(`config.rs`, `MigrationsDirectory`). -/
structure MigrationsDirectory where
  dir : MPath
deriving DecidableEq, Repr

/-- Source `MigrationsDirectory::set_relative_path_base`: a relative `dir` is
re-based onto the configuration file's directory. -/
def MigrationsDirectory.set_relative_path_base (m : MigrationsDirectory) (base : MPath) :
    MigrationsDirectory :=
  if m.dir.isRelative then ⟨base.join m.dir⟩ else m

/-- The parts of `config.rs`'s `Config` the migration subsystem consumes. -/
structure Config where
  migrations_directory : Option MigrationsDirectory
deriving DecidableEq, Repr

/-- Source `Config::set_relative_path_base`, restricted to the
`migrations_directory` field. -/
def Config.set_relative_path_base (c : Config) (base : MPath) : Config :=
  match c.migrations_directory with
  | some m => ⟨some (m.set_relative_path_base base)⟩
  | none => c

/-- The state of the configuration file on disk, as observed by
`Config::read`: whether the resolved path exists, the outcome of
`fs::read_to_string`, the outcome of `toml::from_str` on the content, the
file's parent directory, and the file's path (for error reporting). -/
structure ConfigFile where
  present : Bool
  readResult : Except IoError Unit
  parseResult : Except Str Config
  parentDir : MPath
  path : Str

/-- Source `Config::read`: a missing file yields the default configuration;
otherwise read and parse the file, then re-base relative paths onto the
configuration file's directory. -/
def Config.read (cf : ConfigFile) : Except CliError Config :=
  if cf.present then
    match cf.readResult with
    | .error e => .error (.ioError e (some cf.path))
    | .ok _ =>
        match cf.parseResult with
        | .error m => .error (.migrationError (.otherError m))
        | .ok result => .ok (result.set_relative_path_base cf.parentDir)
  else
    .ok ⟨none⟩

/-- Source `migrations_dir`: explicit argument, else the
`MIGRATION_DIRECTORY` environment variable, else the configuration's
`migrations_directory.dir` (a configuration read error propagates; an absent
entry falls through), else `find_migrations_directory`. -/
def migrations_dir (migration_dir : Option MPath) (envDir : Option MPath)
    (cf : ConfigFile) (findMigrationsDirectory : Except CliError MPath) :
    Except CliError MPath :=
  match migration_dir with
  | some dir => .ok dir
  | none =>
      let from_env_or_config : Option (Except CliError MPath) :=
        match envDir with
        | some v => some (.ok v)
        | none =>
            match Config.read cf with
            | .error e => some (.error e)
            | .ok c =>
                match c.migrations_directory with
                | some md => some (.ok md.dir)
                | none => none
      match from_env_or_config with
      | some result => result
      | none => findMigrationsDirectory

/-- Modelled from the spec: `FileBasedMigrations::find_migrations_directory`
lives in the `diesel_migrations` crate, which is not among the sources; per
the spec it walks from the current working directory upward and returns the
nearest ancestor containing a project marker file.  `ancestors` is the chain
of directories starting at the current working directory, innermost first;
`hasMarker` tells whether a directory contains the marker. -/
def find_migrations_directory_walk (hasMarker : List Str → Bool) :
    List (List Str) → Except CliError (List Str)
  | [] => .error (.migrationError (.otherError ("MigrationDirectoryNotFound").data))
  | d :: ds =>
      if hasMarker d then .ok d else find_migrations_directory_walk hasMarker ds

/-- An on-disk migration entry: its version, its name, and the
`run_in_transaction` flag from its metadata. -/
structure Migration where
  version : Str
  name : Str
  runInTransaction : Bool
deriving DecidableEq, Repr

/-- Building `HashMap<version, migration>` by `collect()`: insertion for each
element in order, a later binding overwriting an earlier one with the same
version key. -/
def buildVersionMap (ms : List Migration) : List Migration :=
  ms.foldl (fun acc m => acc.filter (fun x => x.version != m.version) ++ [m]) []

/-- `HashMap::get` keyed by version. -/
def mapGet (map : List Migration) (v : Str) : Option Migration :=
  map.find? (fun m => m.version == v)

/-- `HashMap::remove` keyed by version: the removed binding plus the
remaining map. -/
def mapRemove (map : List Migration) (v : Str) : Option (Migration × List Migration) :=
  match map.find? (fun m => m.version == v) with
  | none => none
  | some m => some (m, map.filter (fun x => x.version != v))

/-- Source `redo_migrations`: the applied versions to revert are all of them
under `--all`, else the first `min(redo_number, len)` of the applied sequence
as returned by the database. -/
def versions_to_revert (redo_all : Bool) (redo_number : Nat) (applied : List Str) :
    List Str :=
  if redo_all then applied else applied.take (min redo_number applied.length)

/-- Source `redo_migrations`: the transaction opt-out scan — true iff some
inspected version maps to an on-disk migration with
`run_in_transaction() == false`; a version with no on-disk entry contributes
`unwrap_or_default()`, i.e. `false`. -/
def should_use_not_use_transaction (map : List Migration) (vs : List Str) : Bool :=
  vs.any (fun v => ((mapGet map v).map (fun m => !m.runInTransaction)).getD false)

/-- The connection kinds `InferConnection` distinguishes. -/
inductive InferConnection where
  | postgres
  | sqlite
  | mysql
deriving DecidableEq, Repr

/-- Source `should_redo_migration_in_transaction` (with the `mysql` feature
enabled): every connection except MySQL supports wrapping the redo in a
transaction. -/
def should_redo_migration_in_transaction (t : InferConnection) : Bool :=
  !(t == InferConnection.mysql)

/-- Modelled from the spec: `MigrationHarness::revert_last_migration` lives in
the `diesel_migrations` crate, which is not among the sources; per the spec it
reverts the most recently applied migration (the applied sequence is ordered
oldest first) returning its version, and fails with `NoMigrationRun` when no
migration is applied. -/
def revert_last_migration (applied : List Str) : Except MigrationErr (Str × List Str) :=
  match applied.getLast? with
  | none => .error .noMigrationRun
  | some v => .ok (v, applied.dropLast)

/-- Modelled from the spec: `MigrationHarness::revert_all_migrations` reverts
every applied migration, newest first, returning the reverted versions in
revert order. -/
def revert_all_migrations (applied : List Str) : List Str × List Str :=
  (applied.reverse, [])

/-- The revert phase of `redo_migrations` without `--all`:
`(0..redo_number).filter_map(..)` over `revert_last_migration`, treating
`NoMigrationRun` as the stop signal.  Returns the reverted versions (newest
first) and the remaining applied sequence. -/
def redo_revert_phase : Nat → List Str → List Str × List Str
  | 0, applied => ([], applied)
  | n + 1, applied =>
      match revert_last_migration applied with
      | .error _ => ([], applied)
      | .ok (v, rest) =>
          let r := redo_revert_phase n rest
          (v :: r.1, r.2)

/-- Source `redo_migrations`, reapplication-list construction: map each
reverted version through `HashMap::remove` on the freshly re-read store
listing, failing with `UnknownMigrationVersion` on the first version with no
binding. -/
def resolve_reverted (map : List Migration) : List Str → Except MigrationErr (List Migration)
  | [] => .ok []
  | v :: vs =>
      match mapRemove map v with
      | none => .error (.unknownMigrationVersion v)
      | some (m, rest) =>
          match resolve_reverted rest vs with
          | .error e => .error e
          | .ok ms => .ok (m :: ms)

/-- The ordering `sort_by_key(|m| m.name().version())` sorts by. -/
def byVersionLE (a b : Migration) : Prop := a.version ≤ b.version

instance : DecidableRel byVersionLE :=
  fun a b => inferInstanceAs (Decidable (a.version ≤ b.version))

instance : IsTotal Migration byVersionLE :=
  ⟨fun a b => le_total a.version b.version⟩

instance : IsTrans Migration byVersionLE :=
  ⟨fun _ _ _ h1 h2 => le_trans h1 h2⟩

/-- The strict companion of `byVersionLE`, used to show sorted outputs with
distinct versions are unique. -/
def byVersionLT (a b : Migration) : Prop := a.version < b.version

instance : IsAntisymm Migration byVersionLT :=
  ⟨fun _ _ h1 h2 => absurd h2 (lt_asymm h1)⟩

/-- Modelled from the spec: `MigrationHarness::run_migrations` applies the
given migrations in order; the database appends each applied version to the
end of the applied sequence. -/
def run_migrations (applied : List Str) (ms : List Migration) : List Str :=
  applied ++ ms.map Migration.version

/-- The revert phase of the `migrations_inner` closure: revert everything
under `--all`, else up to `redo_number` migrations stopping at
`NoMigrationRun`; returns the reverted versions (revert order, newest first)
and the remaining applied sequence. -/
def redo_reverted (redo_all : Bool) (redo_number : Nat) (applied : List Str) :
    List Str × List Str :=
  if redo_all then revert_all_migrations applied
  else redo_revert_phase redo_number applied

/-- Source `redo_migrations`, closure `migrations_inner`: revert (all, or up
to `redo_number` stopping at `NoMigrationRun`), re-read the store into a
version-keyed map, resolve every reverted version against it (failing with
`UnknownMigrationVersion` if one is gone), sort ascending by version, and
reapply.  `fresh` is the store listing at the re-read, which may differ from
the listing used for the transaction decision. -/
def migrations_inner (fresh : List Migration) (redo_all : Bool) (redo_number : Nat)
    (applied : List Str) : Except MigrationErr (List Migration × List Str) :=
  let reverted := redo_reverted redo_all redo_number applied
  match resolve_reverted (buildVersionMap fresh) reverted.1 with
  | .error e => .error e
  | .ok ms =>
      let sorted := List.insertionSort byVersionLE ms
      .ok (sorted, run_migrations reverted.2 sorted)

/-- Whether `redo_migrations` ran the revert+reapply closure inside
`conn.transaction(..)` or called it directly. -/
inductive RedoOutcome where
  | transactional (r : Except MigrationErr (List Migration × List Str))
  | sequential (r : Except MigrationErr (List Migration × List Str))
deriving Repr

/-- Projection: did an enclosing transaction wrap the redo? -/
def RedoOutcome.isTransactional : RedoOutcome → Bool
  | .transactional _ => true
  | .sequential _ => false

/-- Source `redo_migrations`: build the version map from the current store
listing (`disk`), pick the versions to revert, compute the opt-out scan, and
wrap `migrations_inner` in a transaction iff no inspected migration opts out
and the connection supports it.  `fresh` is the store listing observed by the
inner re-read. -/
def redo_migrations (conn : InferConnection) (disk : List Migration)
    (fresh : List Migration) (redo_all : Bool) (redo_number : Nat)
    (applied : List Str) : RedoOutcome :=
  let migrations := buildVersionMap disk
  let vs := versions_to_revert redo_all redo_number applied
  let optOut := should_use_not_use_transaction migrations vs
  if !optOut && should_redo_migration_in_transaction conn then
    .transactional (migrations_inner fresh redo_all redo_number applied)
  else
    .sequential (migrations_inner fresh redo_all redo_number applied)

/-- Outcome of one revert attempt as classified by the `Revert` command arm:
success, the `NoMigrationRun` signal (detected by downcast), or any other
error. -/
inductive RevertStepResult (σ : Type) where
  | ok (s : σ)
  | noMigrationRun
  | fatal (e : MigrationErr)

/-- The `Revert { number }` arm of `run_migration_command`: call the revert
step up to `number` times, breaking (successfully) on `NoMigrationRun` and
returning any other error.  Also returns how many reverts completed. -/
def revert_number_loop {σ : Type} (step : σ → RevertStepResult σ) :
    Nat → σ → Except MigrationErr (σ × Nat)
  | 0, s => .ok (s, 0)
  | n + 1, s =>
      match step s with
      | .ok s2 =>
          match revert_number_loop step n s2 with
          | .ok (t, c) => .ok (t, c + 1)
          | .error e => .error e
      | .noMigrationRun => .ok (s, 0)
      | .fatal e => .error e

/-- Modelled from the spec: `revert_migration_with_output` delegates to the
harness's `revert_last_migration`; against a well-behaved database the only
failure is `NoMigrationRun` on an empty applied sequence. -/
def spec_revert_step (applied : List Str) : RevertStepResult (List Str) :=
  match revert_last_migration applied with
  | .error _ => .noMigrationRun
  | .ok r => .ok r.2

/-- Source `list_migrations`: collect the applied versions into a set, sort
the store's migrations ascending by version, and emit each entry together
with its applied marker. -/
def list_migrations (applied_versions : List Str) (source_migrations : List Migration) :
    List (Migration × Bool) :=
  let sorted := List.insertionSort byVersionLE source_migrations
  sorted.map (fun m => (m, applied_versions.contains m.version))

/-- C5: for every Generate invocation the generated up script is the
placeholder comment followed by the prefill text — hence it contains the
prefill text (as a suffix) whenever one is provided and is exactly the
placeholder comment otherwise — and a down script is produced iff a down
file is requested (absence of `--no-down`), likewise placeholder followed by
prefill. -/
theorem c5_generate_sql_migration_contents (with_down : Bool) (up_sql down_sql : Str) :
    (generate_sql_migration with_down up_sql down_sql).1
        = ("-- Your SQL goes here\n").data ++ up_sql
    ∧ List.IsSuffix up_sql (generate_sql_migration with_down up_sql down_sql).1
    ∧ (generate_sql_migration with_down [] down_sql).1 = ("-- Your SQL goes here\n").data
    ∧ (generate_sql_migration with_down up_sql down_sql).2
        = (if with_down then
            some (("-- This file should undo anything in `up.sql`\n").data ++ down_sql)
          else none)
    ∧ (generate_sql_migration with_down up_sql []).2
        = (if with_down then
            some (("-- This file should undo anything in `up.sql`\n").data)
          else none) := by
  refine ⟨rfl, ⟨_, rfl⟩, by simp [generate_sql_migration], rfl, by simp [generate_sql_migration]⟩

/-- C8: the migration store root resolution is first-match-wins: an explicit
argument, then the environment value, then the configuration's
`migrations_directory.dir` (re-based onto the configuration file's directory
when relative), then the upward marker walk, each later source consulted
only when every earlier one is absent. -/
theorem c8_migrations_dir_precedence :
    (∀ (d : MPath) envDir cf find, migrations_dir (some d) envDir cf find = .ok d)
    ∧ (∀ (v : MPath) cf find, migrations_dir none (some v) cf find = .ok v)
    ∧ (∀ cf find, migrations_dir none none cf find =
        match Config.read cf with
        | .error e => .error e
        | .ok c =>
            match c.migrations_directory with
            | some md => .ok md.dir
            | none => find)
    ∧ (∀ (c : Config) (base : MPath) (p : Str),
        Config.read ⟨true, .ok (), .ok c, base, p⟩ = .ok (c.set_relative_path_base base))
    ∧ (∀ (m : MigrationsDirectory) (base : MPath),
        (m.set_relative_path_base base).dir
          = if m.dir.isRelative then base.join m.dir else m.dir)
    ∧ (∀ hasMarker d ds, find_migrations_directory_walk hasMarker (d :: ds)
        = if hasMarker d then .ok d else find_migrations_directory_walk hasMarker ds) := by
  refine ⟨fun d envDir cf find => rfl, fun v cf find => rfl, fun cf find => ?_,
    fun c base p => rfl, fun m base => ?_, fun hasMarker d ds => rfl⟩
  · cases h : Config.read cf with
    | error e => simp [migrations_dir, h]
    | ok c =>
        cases hc : c.migrations_directory with
        | some md => simp [migrations_dir, h, hc]
        | none => simp [migrations_dir, h, hc]
  · rw [MigrationsDirectory.set_relative_path_base]
    split
    · rfl
    · rfl

/-- C6 counterexample: the sentinel file the generation path locks is not
`<root>/.lock`; for the store root `m` the code opens and locks
`m/.diesel_lock`. -/
theorem c6_counterexample_lock_name :
    lockSentinelPath ("m").data ≠ ("m/.lock").data
      ∧ lockSentinelPath ("m").data = ("m/.diesel_lock").data := by
  exact ⟨by decide, by decide⟩

/-- C6 amended: the generation path takes an exclusive advisory write lock on
the sentinel file `.diesel_lock` inside the store root, creating it first
when absent, and any acquisition failure is fatal to the Generate command;
failures creating or opening the sentinel are reported with the lock file's
path, while a failure taking the write lock is reported with the store root
path. -/
theorem c6_amended_lock_behavior (ops : LockFileOps) (dir : Str) :
    (acquire_generate_lock ops dir = .ok (lockSentinelPath dir)
      ∨ (∃ e, acquire_generate_lock ops dir
            = .error (.ioError e (some (lockSentinelPath dir))))
      ∨ (∃ m, acquire_generate_lock ops dir
            = .error (.failedToAcquireMigrationFolderLock dir m)))
    ∧ (∀ e, acquire_generate_lock ops dir = .error e →
        ∀ name version explicit wd us ds st,
          generate_command ops dir name version explicit wd us ds st = .error e) := by
  constructor
  · cases hc : ops.createNewFile (lockSentinelPath dir) with
    | ok u =>
        cases hw : ops.lockWrite (lockSentinelPath dir) with
        | ok u2 =>
            exact Or.inl (by simp [acquire_generate_lock, migration_folder_lock, hc, hw])
        | error e =>
            exact Or.inr (Or.inr
              ⟨e.msg, by simp [acquire_generate_lock, migration_folder_lock, hc, hw]⟩)
    | error err =>
        by_cases hk : err.kind = IoErrorKind.alreadyExists
        · cases ho : ops.openFile (lockSentinelPath dir) with
          | ok u =>
              cases hw : ops.lockWrite (lockSentinelPath dir) with
              | ok u2 =>
                  exact Or.inl
                    (by simp [acquire_generate_lock, migration_folder_lock, hc, hk, ho, hw])
              | error e =>
                  exact Or.inr (Or.inr ⟨e.msg,
                    by simp [acquire_generate_lock, migration_folder_lock, hc, hk, ho, hw]⟩)
          | error e =>
              exact Or.inr (Or.inl ⟨e,
                by simp [acquire_generate_lock, migration_folder_lock, hc, hk, ho]⟩)
        · exact Or.inr (Or.inl ⟨err,
            by simp [acquire_generate_lock, migration_folder_lock, hc, hk]⟩)
  · intro e he name version explicit wd us ds st
    rw [generate_command, he]

/-- Witness for the amended C6: with an oracle whose write lock fails, the
Generate command fails with `FailedToAcquireMigrationFolderLock` carrying the
store root path. -/
theorem c6_amended_lock_behavior_witness :
    generate_command failingLockOps ("m").data ("n").data ("v").data true true [] [] ⟨[]⟩
      = .error (.failedToAcquireMigrationFolderLock ("m").data ("busy").data) := by
  exact (c6_amended_lock_behavior failingLockOps ("m").data).2 _ rfl
    ("n").data ("v").data true true [] [] ⟨[]⟩

/-- C4: with an explicit version, Generate succeeds iff no existing entry
name starts with that exact version string; a collision fails with
`DuplicateMigrationVersion` (and, the function returning an error, no
directory is created); on success exactly the one new directory
`<version>_<name>` is added to the store. -/
theorem c4_create_migration_dir_explicit (dir name version : Str) (st : MigrationStoreFs) :
    ((∃ p st2, create_migration_dir dir name version true st = .ok (p, st2))
        ↔ ∀ f ∈ st.folders, version.isPrefixOf f = false)
    ∧ ((∃ f ∈ st.folders, version.isPrefixOf f = true) →
        create_migration_dir dir name version true st
          = .error (.duplicateMigrationVersion dir version))
    ∧ (∀ p st2, create_migration_dir dir name version true st = .ok (p, st2) →
        st2.folders = st.folders ++ [version ++ ("_").data ++ name]) := by
  have hdup : is_duplicate_version version st.folders = true
      ↔ ∃ f ∈ st.folders, version.isPrefixOf f = true := by
    simp [is_duplicate_version, List.any_eq_true]
  refine ⟨⟨?_, ?_⟩, ?_, ?_⟩
  · rintro ⟨p, st2, h⟩ f hf
    by_contra hne
    have : is_duplicate_version version st.folders = true :=
      hdup.mpr ⟨f, hf, by simpa using hne⟩
    simp [create_migration_dir, this] at h
  · intro h
    have : is_duplicate_version version st.folders = false := by
      cases hb : is_duplicate_version version st.folders with
      | false => rfl
      | true =>
          obtain ⟨f, hf, hp⟩ := hdup.mp hb
          exact absurd (h f hf) (by simp [hp])
    refine ⟨dir ++ ("/").data ++ (version ++ ("_").data ++ name),
      ⟨st.folders ++ [version ++ ("_").data ++ name]⟩, ?_⟩
    simp [create_migration_dir, this, createDirEntry]
  · rintro ⟨f, hf, hp⟩
    have : is_duplicate_version version st.folders = true := hdup.mpr ⟨f, hf, hp⟩
    simp [create_migration_dir, this]
  · intro p st2 h
    cases hb : is_duplicate_version version st.folders with
    | true => simp [create_migration_dir, hb] at h
    | false =>
        simp [create_migration_dir, hb, createDirEntry] at h
        rw [← h.2]
        simp

/-- Witness for C4: an explicit version that is a prefix of an existing entry
name fails with `DuplicateMigrationVersion`. -/
theorem c4_create_migration_dir_explicit_witness :
    create_migration_dir ("m").data ("n").data ("v1").data true ⟨[("v1_old").data]⟩
      = .error (.duplicateMigrationVersion ("m").data ("v1").data) := by
  exact (c4_create_migration_dir_explicit ("m").data ("n").data ("v1").data
    ⟨[("v1_old").data]⟩).2.1 ⟨("v1_old").data, by decide, by decide⟩

/-- The probe loop finds nothing when every candidate in range is a
duplicate. -/
theorem firstFreeSub_eq_none (dup : Nat → Bool) :
    ∀ fuel start, (∀ k, start ≤ k → k < start + fuel → dup k = true) →
      firstFreeSub dup start fuel = none := by
  intro fuel
  induction fuel with
  | zero => intro start h; rfl
  | succ n ih =>
      intro start h
      have hs : dup start = true := h start le_rfl (by omega)
      rw [firstFreeSub, if_pos hs]
      exact ih (start + 1) (fun k hk1 hk2 => h k (by omega) (by omega))

/-- The probe loop returns the least non-duplicate candidate in range. -/
theorem firstFreeSub_eq_some (dup : Nat → Bool) :
    ∀ fuel start s, start ≤ s → s < start + fuel → dup s = false →
      (∀ j, start ≤ j → j < s → dup j = true) →
      firstFreeSub dup start fuel = some s := by
  intro fuel
  induction fuel with
  | zero => intro start s h1 h2; omega
  | succ n ih =>
      intro start s h1 h2 hs hmin
      cases hd : dup start with
      | false =>
          have : s = start := by
            by_contra hne
            have : dup start = true := hmin start le_rfl (by omega)
            simp [hd] at this
          rw [firstFreeSub, if_neg (by simp [hd]), this]
      | true =>
          have hne : start ≠ s := fun he => by rw [he, hs] at hd; exact Bool.noConfusion hd
          rw [firstFreeSub, if_pos hd]
          exact ih (start + 1) s (by omega) (by omega) hs
            (fun j hj1 hj2 => hmin j (by omega) hj2)

/-- C3: without an explicit version, Generate probes suffixes `0000`..`ffff`
in increasing order and creates the directory for the first
timestamp-suffix combination that is not a prefix of any existing entry
name; when all 65536 suffixed candidates are prefixes of existing entries it
fails with `TooManyMigrations` and creates no directory. -/
theorem c3_create_migration_dir_probe (dir name version : Str) (st : MigrationStoreFs) :
    ((∀ sub, sub < 65536 →
        is_duplicate_version (version ++ ("-").data ++ toHex4 sub) st.folders = true) →
      create_migration_dir dir name version false st
        = .error (.tooManyMigrations dir version))
    ∧ (∀ sub, sub < 65536 →
        is_duplicate_version (version ++ ("-").data ++ toHex4 sub) st.folders = false →
        (∀ j, j < sub →
          is_duplicate_version (version ++ ("-").data ++ toHex4 j) st.folders = true) →
        create_migration_dir dir name version false st
          = .ok (createDirEntry dir (version ++ ("-").data ++ toHex4 sub) name st)) := by
  constructor
  · intro h
    have hn := firstFreeSub_eq_none
      (fun sub => is_duplicate_version (version ++ ("-").data ++ toHex4 sub) st.folders)
      65536 0 (fun k hk1 hk2 => h k (by omega))
    simp at hn
    simp [create_migration_dir, hn]
  · intro sub hlt hfree hmin
    have hn := firstFreeSub_eq_some
      (fun sub => is_duplicate_version (version ++ ("-").data ++ toHex4 sub) st.folders)
      65536 0 sub (Nat.zero_le sub) (by omega) hfree
      (fun j hj1 hj2 => hmin j hj2)
    simp at hn
    simp [create_migration_dir, hn]

/-- Witness for C3: in an empty store the first probe `0000` is free, so the
allocator creates `<version>-0000_<name>`. -/
theorem c3_create_migration_dir_probe_witness :
    create_migration_dir ("m").data ("n").data ("v").data false ⟨[]⟩
      = .ok (createDirEntry ("m").data (("v").data ++ ("-").data ++ toHex4 0) ("n").data ⟨[]⟩) := by
  exact (c3_create_migration_dir_probe ("m").data ("n").data ("v").data ⟨[]⟩).2 0
    (by omega) (by decide) (fun j hj => absurd hj (Nat.not_lt_zero j))

/-- Helper: the revert loop never performs more reverts than requested. -/
theorem revert_number_loop_count_le {σ : Type} (step : σ → RevertStepResult σ) :
    ∀ n s t c, revert_number_loop step n s = .ok (t, c) → c ≤ n := by
  intro n
  induction n with
  | zero =>
      intro s t c h
      rw [revert_number_loop] at h
      cases h
      exact le_rfl
  | succ m ih =>
      intro s t c h
      cases hs : step s with
      | ok s2 =>
          cases hr : revert_number_loop step m s2 with
          | ok r =>
              obtain ⟨t2, c2⟩ := r
              simp only [revert_number_loop, hs, hr, Except.ok.injEq, Prod.mk.injEq] at h
              obtain ⟨h1, h2⟩ := h
              have hle := ih s2 t2 c2 hr
              omega
          | error e =>
              simp only [revert_number_loop, hs, hr] at h
              exact Except.noConfusion h
      | noMigrationRun =>
          simp only [revert_number_loop, hs, Except.ok.injEq, Prod.mk.injEq] at h
          obtain ⟨h1, h2⟩ := h
          omega
      | fatal e =>
          simp only [revert_number_loop, hs] at h
          exact Except.noConfusion h

/-- Helper: against the spec-modelled database with `len` applied migrations,
requesting `n` reverts succeeds, reverting exactly `min n len` migrations
and leaving the first `len - n` applied. -/
theorem revert_number_loop_spec_model :
    ∀ (n : Nat) (applied : List Str),
      revert_number_loop spec_revert_step n applied
        = .ok (applied.take (applied.length - n), min n applied.length) := by
  intro n
  induction n with
  | zero => intro applied; simp [revert_number_loop]
  | succ m ih =>
      intro applied
      rcases eq_or_ne applied [] with rfl | hne
      · rw [revert_number_loop]
        simp [spec_revert_step, revert_last_migration]
      · obtain ⟨v, hv⟩ : ∃ v, applied.getLast? = some v := by
          cases h : applied.getLast? with
          | none => exact absurd (List.getLast?_eq_none_iff.mp h) hne
          | some v => exact ⟨v, rfl⟩
        have hlen : 1 ≤ applied.length := by
          cases applied with
          | nil => exact absurd rfl hne
          | cons a as => simp
        have hstep : spec_revert_step applied = .ok applied.dropLast := by
          simp [spec_revert_step, revert_last_migration, hv]
        simp only [revert_number_loop, hstep, ih applied.dropLast]
        have h1 : applied.dropLast.take (applied.dropLast.length - m)
            = applied.take (applied.length - (m + 1)) := by
          rw [List.length_dropLast, List.dropLast_eq_take, List.take_take]
          congr 1
          omega
        have h2 : min m applied.dropLast.length + 1 = min (m + 1) applied.length := by
          rw [List.length_dropLast]
          omega
        rw [h1, h2]

/-- C2: the `Revert --number n` loop performs at most `n` reverts; observing
`NoMigrationRun` stops it early with success rather than an error; any other
revert error is propagated as fatal; and against the spec-modelled database
it reverts exactly `min n (applied count)` migrations and succeeds, so a
request exceeding the applied count reverts exactly the applied ones. -/
theorem c2_revert_number_semantics (n : Nat) :
    (∀ (σ : Type) (step : σ → RevertStepResult σ) (s t : σ) (c : Nat),
        revert_number_loop step n s = .ok (t, c) → c ≤ n)
    ∧ (∀ (σ : Type) (step : σ → RevertStepResult σ) (s : σ) (m : Nat),
        step s = .noMigrationRun → revert_number_loop step (m + 1) s = .ok (s, 0))
    ∧ (∀ (σ : Type) (step : σ → RevertStepResult σ) (s : σ) (m : Nat) (e : MigrationErr),
        step s = .fatal e → revert_number_loop step (m + 1) s = .error e)
    ∧ (∀ applied : List Str,
        revert_number_loop spec_revert_step n applied
          = .ok (applied.take (applied.length - n), min n applied.length)) := by
  refine ⟨fun σ step s t c h => revert_number_loop_count_le step n s t c h,
    fun σ step s m h => ?_, fun σ step s m e h => ?_,
    fun applied => revert_number_loop_spec_model n applied⟩
  · rw [revert_number_loop, h]
  · rw [revert_number_loop, h]

/-- Witness for C2: requesting 10 reverts with 3 applied migrations reverts
exactly the 3 applied ones and succeeds, and on an empty database the first
`NoMigrationRun` stops the loop with success. -/
theorem c2_revert_number_semantics_witness :
    revert_number_loop spec_revert_step 10 [("a").data, ("b").data, ("c").data] = .ok ([], 3)
    ∧ revert_number_loop spec_revert_step 5 ([] : List Str) = .ok ([], 0) := by
  constructor
  · have h := (c2_revert_number_semantics 10).2.2.2 [("a").data, ("b").data, ("c").data]
    simpa using h
  · exact (c2_revert_number_semantics 5).2.1 (List Str) spec_revert_step [] 4 rfl

/-- Helper: folding `collect()` over a listing whose versions are distinct
never overwrites, so the map's contents are the listing itself. -/
theorem buildVersionMap_foldl_eq (ms : List Migration) :
    ∀ acc : List Migration, ((acc ++ ms).map Migration.version).Nodup →
      ms.foldl (fun acc m => acc.filter (fun x => x.version != m.version) ++ [m]) acc
        = acc ++ ms := by
  induction ms with
  | nil => intro acc h; simp
  | cons m rest ih =>
      intro acc h
      have hdisj : ∀ x ∈ acc, x.version ≠ m.version := by
        intro x hx he
        rw [List.map_append, List.nodup_append] at h
        exact h.2.2 (List.mem_map_of_mem _ hx) (by simp [he])
      have hfilter : acc.filter (fun x => x.version != m.version) = acc := by
        rw [List.filter_eq_self]
        intro x hx
        simpa using hdisj x hx
      rw [List.foldl_cons, hfilter]
      have hrec := ih (acc ++ [m]) (by rw [List.append_assoc]; simpa using h)
      rw [hrec, List.append_assoc]
      simp

/-- Helper: with distinct versions, `collect()` into the version map is the
identity. -/
theorem buildVersionMap_eq_self {ms : List Migration}
    (h : (ms.map Migration.version).Nodup) : buildVersionMap ms = ms := by
  have := buildVersionMap_foldl_eq ms [] (by simpa using h)
  simpa [buildVersionMap] using this

/-- Helper: a version is absent from the map iff no entry carries it. -/
theorem mapGet_eq_none_iff (map : List Migration) (v : Str) :
    mapGet map v = none ↔ ∀ m ∈ map, m.version ≠ v := by
  simp [mapGet, List.find?_eq_none]

/-- Helper: a successful map lookup returns a member carrying the key. -/
theorem mapGet_eq_some_facts (map : List Migration) (v : Str) (m : Migration)
    (h : mapGet map v = some m) : m ∈ map ∧ m.version = v := by
  rw [mapGet] at h
  exact ⟨List.mem_of_find?_eq_some h, by simpa using List.find?_some h⟩

/-- Helper: the transaction opt-out scan is false iff every listed migration
whose version is inspected runs inside a transaction (distinct versions). -/
theorem should_use_not_use_transaction_eq_false_iff (map : List Migration) (vs : List Str)
    (hnd : (map.map Migration.version).Nodup) :
    should_use_not_use_transaction map vs = false
      ↔ ∀ m ∈ map, m.version ∈ vs → m.runInTransaction = true := by
  rw [should_use_not_use_transaction, List.any_eq_false]
  constructor
  · intro h m hm hv
    have := h m.version hv
    cases hg : mapGet map m.version with
    | none => exact absurd rfl ((mapGet_eq_none_iff map m.version).mp hg m hm)
    | some m2 =>
        obtain ⟨hm2, hv2⟩ := mapGet_eq_some_facts map m.version m2 hg
        have hmm : m2 = m := List.inj_on_of_nodup_map hnd hm2 hm hv2
        rw [hg] at this
        simp at this
        rw [← hmm]
        exact this
  · intro h v hv
    cases hg : mapGet map v with
    | none => simp [hg]
    | some m =>
        obtain ⟨hm, hvm⟩ := mapGet_eq_some_facts map v m hg
        have := h m hm (hvm ▸ hv)
        simp [hg, this]

/-- C1: Redo wraps the whole revert-then-reapply sequence in one database
transaction iff the connection supports transactional DDL (it is not MySQL)
and none of the inspected migrations declares `run_in_transaction = false`;
when either condition fails the very same sequence runs with no enclosing
transaction. -/
theorem c1_redo_transaction_policy (conn : InferConnection) (disk fresh : List Migration)
    (redo_all : Bool) (n : Nat) (applied : List Str)
    (hnd : (disk.map Migration.version).Nodup) :
    ((should_redo_migration_in_transaction conn = true
        ∧ ∀ m ∈ disk, m.version ∈ versions_to_revert redo_all n applied →
            m.runInTransaction = true) →
      redo_migrations conn disk fresh redo_all n applied
        = .transactional (migrations_inner fresh redo_all n applied))
    ∧ (¬ (should_redo_migration_in_transaction conn = true
        ∧ ∀ m ∈ disk, m.version ∈ versions_to_revert redo_all n applied →
            m.runInTransaction = true) →
      redo_migrations conn disk fresh redo_all n applied
        = .sequential (migrations_inner fresh redo_all n applied)) := by
  have hmap : buildVersionMap disk = disk := buildVersionMap_eq_self hnd
  have hiff := should_use_not_use_transaction_eq_false_iff disk
    (versions_to_revert redo_all n applied) hnd
  constructor
  · rintro ⟨hc, hall⟩
    have hfalse : should_use_not_use_transaction disk
        (versions_to_revert redo_all n applied) = false := hiff.mpr hall
    rw [redo_migrations, hmap, hfalse, hc]
    rfl
  · intro hnot
    rw [redo_migrations, hmap]
    cases hopt : should_use_not_use_transaction disk
        (versions_to_revert redo_all n applied) with
    | true => rfl
    | false =>
        cases hc : should_redo_migration_in_transaction conn with
        | true => exact absurd ⟨hc, hiff.mp hopt⟩ hnot
        | false => rfl

/-- Witness for C1: on PostgreSQL with a single in-transaction migration
applied, redoing runs inside an enclosing transaction; and on MySQL the same
redo runs without one. -/
theorem c1_redo_transaction_policy_witness :
    redo_migrations InferConnection.postgres [⟨("a").data, ("m").data, true⟩]
        [⟨("a").data, ("m").data, true⟩] true 1 [("a").data]
      = .transactional (migrations_inner [⟨("a").data, ("m").data, true⟩] true 1 [("a").data])
    ∧ redo_migrations InferConnection.mysql [⟨("a").data, ("m").data, true⟩]
        [⟨("a").data, ("m").data, true⟩] true 1 [("a").data]
      = .sequential (migrations_inner [⟨("a").data, ("m").data, true⟩] true 1 [("a").data]) := by
  constructor
  · exact (c1_redo_transaction_policy InferConnection.postgres
      [⟨("a").data, ("m").data, true⟩] [⟨("a").data, ("m").data, true⟩] true 1 [("a").data]
      (by decide)).1 ⟨rfl, by decide⟩
  · exact (c1_redo_transaction_policy InferConnection.mysql
      [⟨("a").data, ("m").data, true⟩] [⟨("a").data, ("m").data, true⟩] true 1 [("a").data]
      (by decide)).2 (by
        rintro ⟨hc, hall⟩
        exact Bool.noConfusion hc)

/-- Helper: removing one version from the map leaves lookups of other
versions unchanged. -/
theorem mapGet_filter_ne (v w : Str) (hne : w ≠ v) (map : List Migration) :
    mapGet (map.filter (fun x => x.version != v)) w = mapGet map w := by
  rw [mapGet, mapGet, List.find?_filter]
  have hpq : (fun a : Migration => decide ((a.version != v) = true ∧ (a.version == w) = true))
      = fun a : Migration => a.version == w := by
    funext a
    by_cases hw : a.version = w
    · simp [hw, hne]
    · simp [hw]
  rw [hpq]

/-- Helper: `HashMap::remove` is the lookup paired with the filtered map. -/
theorem mapRemove_eq (map : List Migration) (v : Str) :
    mapRemove map v
      = (mapGet map v).map (fun m => (m, map.filter (fun x => x.version != v))) := by
  rw [mapRemove, mapGet]
  cases h : List.find? (fun m => m.version == v) map with
  | none => rfl
  | some m => rfl

/-- Helper: a reverted version with no on-disk entry makes the reapply-list
construction fail with some `UnknownMigrationVersion`. -/
theorem resolve_reverted_missing (v : Str) :
    ∀ (rs : List Str) (map : List Migration), v ∈ rs → (∀ m ∈ map, m.version ≠ v) →
      ∃ w, resolve_reverted map rs = .error (.unknownMigrationVersion w) := by
  intro rs
  induction rs with
  | nil => intro map hv; exact absurd hv (List.not_mem_nil v)
  | cons r rest ih =>
      intro map hv hmap
      cases hg : mapGet map r with
      | none =>
          have hrem : mapRemove map r = none := by rw [mapRemove_eq, hg]; rfl
          exact ⟨r, by simp [resolve_reverted, hrem]⟩
      | some m =>
          have hrem : mapRemove map r
              = some (m, map.filter (fun x => x.version != r)) := by
            rw [mapRemove_eq, hg]; rfl
          have hvr : v ≠ r := by
            intro he
            obtain ⟨hm, hvm⟩ := mapGet_eq_some_facts map r m hg
            exact hmap m hm (by rw [hvm, he])
          have hvrest : v ∈ rest := by
            cases List.mem_cons.mp hv with
            | inl h => exact absurd h hvr
            | inr h => exact h
          have hmaprest : ∀ x ∈ map.filter (fun y => y.version != r), x.version ≠ v :=
            fun x hx => hmap x (List.mem_filter.mp hx).1
          obtain ⟨w, hw⟩ := ih (map.filter (fun y => y.version != r)) hvrest hmaprest
          exact ⟨w, by simp [resolve_reverted, hrem, hw]⟩

/-- C10: the redo transaction decision inspects only the first
`min(n, length)` elements of the applied sequence (all of them under
`--all`); an inspected version with no matching on-disk entry contributes
"runs inside a transaction" to the scan and so never disables the enclosing
transaction, even though its later reapplication fails with
`UnknownMigrationVersion`. -/
theorem c10_redo_decision_inspection (map : List Migration) (n : Nat)
    (applied : List Str) (v : Str) (vs1 vs2 : List Str)
    (hv : ∀ m ∈ map, m.version ≠ v) :
    versions_to_revert false n applied = applied.take (min n applied.length)
    ∧ versions_to_revert true n applied = applied
    ∧ should_use_not_use_transaction map (vs1 ++ v :: vs2)
        = should_use_not_use_transaction map (vs1 ++ vs2)
    ∧ (∀ rs, v ∈ rs →
        ∃ w, resolve_reverted map rs = .error (.unknownMigrationVersion w)) := by
  have hg : mapGet map v = none := (mapGet_eq_none_iff map v).mpr hv
  refine ⟨rfl, rfl, ?_, fun rs hrs => resolve_reverted_missing v rs map hrs hv⟩
  rw [should_use_not_use_transaction, should_use_not_use_transaction,
    List.any_append, List.any_append, List.any_cons, hg]
  simp

/-- Witness for C10: a version absent from the store contributes nothing to
the opt-out scan. -/
theorem c10_redo_decision_inspection_witness :
    should_use_not_use_transaction [⟨("a").data, ("m").data, true⟩]
        ([("a").data] ++ ("x").data :: [])
      = should_use_not_use_transaction [⟨("a").data, ("m").data, true⟩]
        ([("a").data] ++ []) := by
  exact (c10_redo_decision_inspection [⟨("a").data, ("m").data, true⟩] 5 []
    ("x").data [("a").data] [] (by decide)).2.2.1

/-- Helper: a version-sorted listing with pairwise-distinct versions is
strictly sorted. -/
theorem sorted_byVersionLT_of_nodup {l : List Migration}
    (hs : List.Sorted byVersionLE l) (hn : (l.map Migration.version).Nodup) :
    List.Sorted byVersionLT l := by
  have hne : l.Pairwise (fun a b => a.version ≠ b.version) := List.pairwise_map.mp hn
  exact (hs.and hne).imp (fun h => lt_of_le_of_ne h.1 h.2)

/-- Helper: two version-sorted permutations with distinct versions are
equal. -/
theorem sorted_nodup_perm_eq {l1 l2 : List Migration}
    (hp : l1.Perm l2) (h1 : List.Sorted byVersionLE l1) (h2 : List.Sorted byVersionLE l2)
    (hn : (l1.map Migration.version).Nodup) : l1 = l2 := by
  have hn2 : (l2.map Migration.version).Nodup := (hp.map Migration.version).nodup_iff.mp hn
  exact List.eq_of_perm_of_sorted hp (sorted_byVersionLT_of_nodup h1 hn)
    (sorted_byVersionLT_of_nodup h2 hn2)

/-- C9: List emits every on-disk entry exactly once (its output is a
permutation of the store listing) in ascending version order, each entry
annotated applied iff its version belongs to the database's applied
sequence; with distinct versions the output is independent of the
filesystem enumeration order. -/
theorem c9_list_migrations_output (applied : List Str) (ms1 ms2 : List Migration) :
    ((list_migrations applied ms1).map Prod.fst).Perm ms1
    ∧ List.Sorted byVersionLE ((list_migrations applied ms1).map Prod.fst)
    ∧ (∀ p ∈ list_migrations applied ms1, (p.2 = true ↔ p.1.version ∈ applied))
    ∧ (ms1.Perm ms2 → (ms1.map Migration.version).Nodup →
        list_migrations applied ms1 = list_migrations applied ms2) := by
  have hmapfst : ∀ ms : List Migration,
      (list_migrations applied ms).map Prod.fst = List.insertionSort byVersionLE ms := by
    intro ms
    simp only [list_migrations, List.map_map]
    exact List.map_id _
  refine ⟨?_, ?_, ?_, ?_⟩
  · rw [hmapfst]
    exact List.perm_insertionSort byVersionLE ms1
  · rw [hmapfst]
    exact List.sorted_insertionSort byVersionLE ms1
  · intro p hp
    simp only [list_migrations] at hp
    obtain ⟨m, hm, rfl⟩ := List.mem_map.mp hp
    simp
  · intro hperm hnd
    have hp : (List.insertionSort byVersionLE ms1).Perm (List.insertionSort byVersionLE ms2) :=
      ((List.perm_insertionSort byVersionLE ms1).trans hperm).trans
        (List.perm_insertionSort byVersionLE ms2).symm
    have hn1 : ((List.insertionSort byVersionLE ms1).map Migration.version).Nodup :=
      ((List.perm_insertionSort byVersionLE ms1).map Migration.version).nodup_iff.mpr hnd
    have heq := sorted_nodup_perm_eq hp (List.sorted_insertionSort byVersionLE ms1)
      (List.sorted_insertionSort byVersionLE ms2) hn1
    simp only [list_migrations]
    rw [heq]

/-- Witness for C9: two enumeration orders of the same two-entry store
produce the same listing. -/
theorem c9_list_migrations_output_witness :
    list_migrations [("a").data]
        [⟨("b").data, ("y").data, true⟩, ⟨("a").data, ("x").data, true⟩]
      = list_migrations [("a").data]
        [⟨("a").data, ("x").data, true⟩, ⟨("b").data, ("y").data, true⟩] := by
  exact (c9_list_migrations_output [("a").data]
    [⟨("b").data, ("y").data, true⟩, ⟨("a").data, ("x").data, true⟩]
    [⟨("a").data, ("x").data, true⟩, ⟨("b").data, ("y").data, true⟩]).2.2.2
    (by decide) (by decide)

/-- Helper: the bounded revert phase reverts pairwise-distinct versions, all
drawn from the applied sequence. -/
theorem redo_revert_phase_facts :
    ∀ (n : Nat) (applied : List Str), applied.Nodup →
      (redo_revert_phase n applied).1.Nodup
      ∧ ∀ v ∈ (redo_revert_phase n applied).1, v ∈ applied := by
  intro n
  induction n with
  | zero =>
      intro applied h
      exact ⟨List.nodup_nil, fun v hv => absurd hv (List.not_mem_nil v)⟩
  | succ m ih =>
      intro applied h
      cases hl : applied.getLast? with
      | none =>
          simp only [redo_revert_phase, revert_last_migration, hl]
          exact ⟨List.nodup_nil, fun v hv => absurd hv (List.not_mem_nil v)⟩
      | some v =>
          have hne : applied ≠ [] := by
            intro he
            rw [he] at hl
            exact Option.noConfusion hl
          have hv : v = applied.getLast hne := by
            have h2 := List.getLast?_eq_getLast applied hne
            rw [hl] at h2
            exact Option.some.inj h2
          have hdln : applied.dropLast.Nodup := (List.dropLast_sublist applied).nodup h
          obtain ⟨h1, h2⟩ := ih applied.dropLast hdln
          have hvnd : v ∉ applied.dropLast := by
            have hsplit := List.dropLast_append_getLast hne
            rw [← hsplit, List.nodup_append] at h
            intro hmem
            exact h.2.2 hmem (by rw [hv]; exact List.mem_cons_self _ _)
          simp only [redo_revert_phase, revert_last_migration, hl]
          constructor
          · rw [List.nodup_cons]
            exact ⟨fun hvp => hvnd (h2 v hvp), h1⟩
          · intro w hw
            cases List.mem_cons.mp hw with
            | inl he => rw [he, hv]; exact List.getLast_mem hne
            | inr hwp => exact (List.dropLast_sublist applied).subset (h2 w hwp)

/-- Helper: when every listed version is found, the found entries carry
exactly those versions, in order. -/
theorem filterMap_mapGet_map_version :
    ∀ (rs : List Str) (map : List Migration),
      (∀ v ∈ rs, mapGet map v ≠ none) →
      ((rs.filterMap (mapGet map)).map Migration.version) = rs := by
  intro rs map
  induction rs with
  | nil => intro h; rfl
  | cons r rest ih =>
      intro h
      cases hg : mapGet map r with
      | none => exact absurd hg (h r (List.mem_cons_self r rest))
      | some m =>
          have hvm : m.version = r := (mapGet_eq_some_facts map r m hg).2
          simp only [List.filterMap_cons, hg, List.map_cons, hvm]
          rw [ih (fun v hv => h v (List.mem_cons_of_mem r hv))]

/-- Helper: when every reverted version has an on-disk entry, the
reapply-list construction returns precisely those entries. -/
theorem resolve_reverted_all_present :
    ∀ (rs : List Str) (map : List Migration), rs.Nodup →
      (∀ v ∈ rs, ∃ m ∈ map, m.version = v) →
      resolve_reverted map rs = .ok (rs.filterMap (mapGet map)) := by
  intro rs
  induction rs with
  | nil => intro map h1 h2; rfl
  | cons r rest ih =>
      intro map hnd hall
      obtain ⟨m, hm, hv⟩ := hall r (List.mem_cons_self r rest)
      have hget : ∃ m2, mapGet map r = some m2 := by
        cases hg : mapGet map r with
        | none => exact absurd hv ((mapGet_eq_none_iff map r).mp hg m hm)
        | some m2 => exact ⟨m2, rfl⟩
      obtain ⟨m2, hg⟩ := hget
      have hrem : mapRemove map r = some (m2, map.filter (fun x => x.version != r)) := by
        rw [mapRemove_eq, hg]
        rfl
      have hrnotrest : r ∉ rest := (List.nodup_cons.mp hnd).1
      have hrest : ∀ v ∈ rest, ∃ m3 ∈ map.filter (fun x => x.version != r), m3.version = v := by
        intro v hvr
        obtain ⟨m3, hm3, hv3⟩ := hall v (List.mem_cons_of_mem r hvr)
        have hvne : v ≠ r := fun he => hrnotrest (he ▸ hvr)
        exact ⟨m3, List.mem_filter.mpr ⟨hm3, by simp [hv3, hvne]⟩, hv3⟩
      have hrec := ih (map.filter (fun x => x.version != r)) (List.nodup_cons.mp hnd).2 hrest
      have hcong : rest.filterMap (mapGet (map.filter (fun x => x.version != r)))
          = rest.filterMap (mapGet map) :=
        List.filterMap_congr
          (fun v hvr => mapGet_filter_ne r v (fun he => hrnotrest (he ▸ hvr)) map)
      simp only [resolve_reverted, hrem, hrec, hcong, List.filterMap_cons, hg]

/-- Helper: a failing reapply-list construction fails with
`UnknownMigrationVersion` for some listed version that no entry carries. -/
theorem resolve_reverted_error_facts :
    ∀ (rs : List Str) (map : List Migration), rs.Nodup →
      ∀ (e : MigrationErr), resolve_reverted map rs = .error e →
        ∃ v, e = .unknownMigrationVersion v ∧ v ∈ rs ∧ ∀ m ∈ map, m.version ≠ v := by
  intro rs
  induction rs with
  | nil => intro map hnd e h; exact Except.noConfusion h
  | cons r rest ih =>
      intro map hnd e h
      cases hg : mapGet map r with
      | none =>
          have hrem : mapRemove map r = none := by
            rw [mapRemove_eq, hg]
            rfl
          simp only [resolve_reverted, hrem] at h
          cases h
          exact ⟨r, rfl, List.mem_cons_self r rest,
            fun m hm => (mapGet_eq_none_iff map r).mp hg m hm⟩
      | some m2 =>
          have hrem : mapRemove map r = some (m2, map.filter (fun x => x.version != r)) := by
            rw [mapRemove_eq, hg]
            rfl
          simp only [resolve_reverted, hrem] at h
          cases hres : resolve_reverted (map.filter (fun x => x.version != r)) rest with
          | ok ms =>
              rw [hres] at h
              exact Except.noConfusion h
          | error e2 =>
              rw [hres] at h
              cases h
              obtain ⟨v, hv1, hv2, hv3⟩ :=
                ih (map.filter (fun x => x.version != r)) (List.nodup_cons.mp hnd).2 e hres
              refine ⟨v, hv1, List.mem_cons_of_mem r hv2, ?_⟩
              intro m hm
              by_cases hmr : m.version = r
              · rw [hmr]
                intro he
                rw [← he] at hv2
                exact (List.nodup_cons.mp hnd).1 hv2
              · exact hv3 m (List.mem_filter.mpr ⟨hm, by simp [hmr]⟩)

/-- C7: after the revert phase, the exact list of reverted versions is
re-resolved against a fresh listing of the on-disk store; when every
reverted version has a matching entry the matched entries — carrying exactly
the reverted versions — are reapplied sorted ascending by version, and when
some reverted version has no matching entry Redo fails with
`UnknownMigrationVersion` naming a reverted version absent from disk. -/
theorem c7_redo_reapply_resolution (fresh : List Migration) (redo_all : Bool)
    (n : Nat) (applied : List Str)
    (hfresh : (fresh.map Migration.version).Nodup) (happ : applied.Nodup) :
    ((∀ v ∈ (redo_reverted redo_all n applied).1, ∃ m ∈ fresh, m.version = v) →
      migrations_inner fresh redo_all n applied
        = .ok (List.insertionSort byVersionLE
                ((redo_reverted redo_all n applied).1.filterMap (mapGet fresh)),
              run_migrations (redo_reverted redo_all n applied).2
                (List.insertionSort byVersionLE
                  ((redo_reverted redo_all n applied).1.filterMap (mapGet fresh))))
      ∧ List.Sorted byVersionLE (List.insertionSort byVersionLE
          ((redo_reverted redo_all n applied).1.filterMap (mapGet fresh)))
      ∧ ((List.insertionSort byVersionLE
          ((redo_reverted redo_all n applied).1.filterMap (mapGet fresh))).map
            Migration.version).Perm (redo_reverted redo_all n applied).1)
    ∧ (∀ e, migrations_inner fresh redo_all n applied = .error e →
        ∃ v, e = .unknownMigrationVersion v ∧ v ∈ (redo_reverted redo_all n applied).1
          ∧ ∀ m ∈ fresh, m.version ≠ v)
    ∧ ((∃ v ∈ (redo_reverted redo_all n applied).1, ∀ m ∈ fresh, m.version ≠ v) →
        ∃ e, migrations_inner fresh redo_all n applied = .error e) := by
  have hmap : buildVersionMap fresh = fresh := buildVersionMap_eq_self hfresh
  have hrevnd : (redo_reverted redo_all n applied).1.Nodup := by
    cases redo_all with
    | true => exact List.nodup_reverse.mpr happ
    | false => exact (redo_revert_phase_facts n applied happ).1
  refine ⟨?_, ?_, ?_⟩
  · intro hall
    have hallget : ∀ v ∈ (redo_reverted redo_all n applied).1, mapGet fresh v ≠ none := by
      intro v hv hg
      obtain ⟨m, hm, hvm⟩ := hall v hv
      exact (mapGet_eq_none_iff fresh v).mp hg m hm hvm
    have hres := resolve_reverted_all_present (redo_reverted redo_all n applied).1 fresh
      hrevnd hall
    refine ⟨?_, List.sorted_insertionSort byVersionLE _, ?_⟩
    · simp only [migrations_inner, hmap, hres]
    · have h1 : ((redo_reverted redo_all n applied).1.filterMap (mapGet fresh)).map
          Migration.version = (redo_reverted redo_all n applied).1 :=
        filterMap_mapGet_map_version (redo_reverted redo_all n applied).1 fresh hallget
      have h2 := (List.perm_insertionSort byVersionLE
        ((redo_reverted redo_all n applied).1.filterMap (mapGet fresh))).map Migration.version
      rw [h1] at h2
      exact h2
  · intro e he
    cases hres : resolve_reverted (buildVersionMap fresh)
        (redo_reverted redo_all n applied).1 with
    | ok ms =>
        simp only [migrations_inner, hres] at he
        exact Except.noConfusion he
    | error e2 =>
        simp only [migrations_inner, hres] at he
        cases he
        rw [hmap] at hres
        exact resolve_reverted_error_facts (redo_reverted redo_all n applied).1 fresh
          hrevnd e hres
  · rintro ⟨v, hv, hmiss⟩
    obtain ⟨w, hw⟩ := resolve_reverted_missing v (redo_reverted redo_all n applied).1
      (buildVersionMap fresh) hv (by rw [hmap]; exact hmiss)
    exact ⟨.unknownMigrationVersion w, by simp only [migrations_inner, hw]⟩

/-- Witness for C7: redoing the single applied migration of a one-entry
store reapplies exactly that entry. -/
theorem c7_redo_reapply_resolution_witness :
    migrations_inner [⟨("a").data, ("x").data, true⟩] true 1 [("a").data]
      = .ok (List.insertionSort byVersionLE
              ((redo_reverted true 1 [("a").data]).1.filterMap
                (mapGet [⟨("a").data, ("x").data, true⟩])),
            run_migrations (redo_reverted true 1 [("a").data]).2
              (List.insertionSort byVersionLE
                ((redo_reverted true 1 [("a").data]).1.filterMap
                  (mapGet [⟨("a").data, ("x").data, true⟩])))) := by
  exact ((c7_redo_reapply_resolution [⟨("a").data, ("x").data, true⟩] true 1 [("a").data]
    (by decide) (by decide)).1 (by decide)).1
